import Mathlib

/-!
Shallow embedding of the route-guard-and-navigation pipeline of the
`wuyanzujs/utils` repository (src/utils/guards.ts, the router module in
src/unnamed/part_001, and the page helpers in src/unnamed/part_003).

Strings are modelled as `List Char` (`JStr`).  JavaScript records
(`Record<string, any>` restricted to JSON-compatible values, per the
repository's data model) are modelled as insertion-ordered association
lists.  JavaScript numbers are modelled as integers; fractional numbers
are outside the model's scope and no theorem depends on them.
Asynchronous execution is single-threaded cooperative scheduling (per
the source's host runtime), so every `await` collapses to a sequential
call and a guard's rejection of a promise is modelled as an error
outcome.
-/

/-- JavaScript strings, modelled as their character lists. -/
abbrev JStr := List Char

/-- JSON-compatible JavaScript values (the value type of the `params`
records accepted by the router).  Numbers are modelled as integers. -/
inductive JValue where
  | str : JStr → JValue
  | num : Int → JValue
  | bool : Bool → JValue
  | null : JValue
  | arr : List JValue → JValue
  | obj : List (JStr × JValue) → JValue

instance : Inhabited JValue := ⟨JValue.null⟩

/-- Parameter records passed to the router: insertion-ordered key/value
lists, mirroring a JavaScript object's own-property enumeration order. -/
abbrev ParamsL := List (JStr × JValue)

/-- `Array.prototype.join(sep)` on a list of strings. -/
def joinSep (sep : Char) : List JStr → JStr
  | [] => []
  | [x] => x
  | x :: xs => x ++ sep :: joinSep sep xs

/-- `typeof value === 'object'` for a `JValue`: true for objects, arrays
and `null` (JavaScript's `typeof null` is `'object'`). -/
def jsTypeofIsObject : JValue → Bool
  | .null => true
  | .arr _ => true
  | .obj _ => true
  | _ => false

/-- `String(value)` for the primitive values reachable in `buildUrl`
(the object-typed cases are routed to `JSON.stringify` there and are
unreachable here). -/
def jsToString : JValue → JStr
  | .str s => s
  | .num n => (toString n).toList
  | .bool true => "true".toList
  | .bool false => "false".toList
  | .null => "null".toList
  | .arr _ => []
  | .obj _ => []

/-- Lower-case hexadecimal digit for `n < 16`. -/
def hexLower (n : Nat) : Char :=
  if n < 10 then Char.ofNat (48 + n) else Char.ofNat (87 + n)

/-- `JSON.stringify`'s escaping of one character inside a string literal. -/
def escapeJsonChar (c : Char) : JStr :=
  if c = '"' then ['\\', '"']
  else if c = '\\' then ['\\', '\\']
  else if c = '\n' then ['\\', 'n']
  else if c = '\r' then ['\\', 'r']
  else if c = '\t' then ['\\', 't']
  else if c.toNat = 8 then ['\\', 'b']
  else if c.toNat = 12 then ['\\', 'f']
  else if c.toNat < 32 then
    ['\\', 'u', '0', '0', hexLower (c.toNat / 16), hexLower (c.toNat % 16)]
  else [c]

/-- `JSON.stringify` on JSON-compatible values (numbers as integers). -/
def jsonStringify : JValue → JStr
  | .null => "null".toList
  | .bool true => "true".toList
  | .bool false => "false".toList
  | .num n => (toString n).toList
  | .str s => '"' :: (s.flatMap escapeJsonChar ++ ['"'])
  | .arr xs => '[' :: (joinSep ',' (xs.attach.map fun x => jsonStringify x.1) ++ [']'])
  | .obj kvs =>
      '{' :: (joinSep ','
        (kvs.attach.map fun kv =>
          jsonStringify (.str kv.1.1) ++ ':' :: jsonStringify kv.1.2) ++ ['}'])
decreasing_by
  · have := List.sizeOf_lt_of_mem x.2
    simp at this ⊢
    omega
  · obtain ⟨⟨k, v⟩, hm⟩ := kv
    have := List.sizeOf_lt_of_mem hm
    simp at this ⊢
    omega
  · obtain ⟨⟨k, v⟩, hm⟩ := kv
    have := List.sizeOf_lt_of_mem hm
    simp at this ⊢
    omega

/-- The serialization `buildUrl` applies to one parameter value:
`typeof value === 'object' ? JSON.stringify(value) : String(value)`. -/
def serializeValue (v : JValue) : JStr :=
  if jsTypeofIsObject v then jsonStringify v else jsToString v

/-- Characters `encodeURIComponent` leaves unescaped. -/
def isUnreserved (c : Char) : Bool :=
  c.isAlpha || c.isDigit ||
    (c = '-' || c = '_' || c = '.' || c = '!' || c = '~' || c = '*' ||
     c = '\'' || c = '(' || c = ')')

/-- Upper-case hexadecimal digit for `n < 16` (as `encodeURIComponent`
emits). -/
def hexUpper (n : Nat) : Char :=
  if n < 10 then Char.ofNat (48 + n) else Char.ofNat (55 + n)

/-- UTF-8 byte sequence of a code point. -/
def utf8Bytes (n : Nat) : List Nat :=
  if n < 128 then [n]
  else if n < 2048 then [192 + n / 64, 128 + n % 64]
  else if n < 65536 then [224 + n / 4096, 128 + n / 64 % 64, 128 + n % 64]
  else [240 + n / 262144, 128 + n / 4096 % 64, 128 + n / 64 % 64, 128 + n % 64]

/-- Percent-escape of one byte: `%XY` with upper-case hex. -/
def escByte (b : Nat) : JStr :=
  ['%', hexUpper (b / 16), hexUpper (b % 16)]

/-- `encodeURIComponent` applied to one character. -/
def encChar (c : Char) : JStr :=
  if isUnreserved c then [c] else (utf8Bytes c.toNat).flatMap escByte

/-- `encodeURIComponent`. -/
def encodeURIComponent : JStr → JStr
  | [] => []
  | c :: cs => encChar c ++ encodeURIComponent cs

/-- `buildUrl` from the router module: returns the path unchanged when
`params` is absent or empty, otherwise serializes each pair as
`key=encodeURIComponent(serialized value)`, joins with `&`, and appends
with `?` or `&` according to `url.includes('?')`. -/
def buildUrl (url : JStr) (params : Option ParamsL) : JStr :=
  match params with
  | none => url
  | some ps =>
    if ps.isEmpty then url
    else
      let queryString :=
        joinSep '&' (ps.map fun kv => kv.1 ++ '=' :: encodeURIComponent (serializeValue kv.2))
      if '?' ∈ url then url ++ '&' :: queryString else url ++ '?' :: queryString

/-! ## Guard registry and history (src/utils/guards.ts)

JavaScript guards are function objects compared by reference identity
(`indexOf` uses `===`).  Reference identity is modelled by a guard id
(`GuardId`); the behaviour attached to each id is an environment
`GuardEnv` supplied to evaluation.  A guard invocation either produces
a boolean (`ok`) or throws / rejects (`err`). -/

/-- Reference identity of a registered guard function object. -/
abbrev GuardId := Nat

/-- Outcome of awaiting one guard: a boolean, or a thrown error /
rejected promise. -/
inductive GuardResult where
  | ok : Bool → GuardResult
  | err : GuardResult

/-- Behaviour of each guard object: `(to, from, params?)` to outcome. -/
abbrev GuardEnv := GuardId → JStr → JStr → Option ParamsL → GuardResult

/-- The module-level `config` record of guards.ts. -/
structure RouterConfig where
  guards : List GuardId
  enableLog : Bool
  history : List JStr
  maxHistorySize : Nat

/-- The initial value of `config` in guards.ts. -/
def initialConfig : RouterConfig :=
  { guards := [], enableLog := false, history := [], maxHistorySize := 50 }

/-- `addGuard`: `config.guards.push(guard)`. -/
def addGuard (g : GuardId) (cfg : RouterConfig) : RouterConfig :=
  { cfg with guards := cfg.guards ++ [g] }

/-- `removeGuard` on the guard list: `indexOf` then `splice(index, 1)`
when found, silent no-op otherwise. -/
def removeGuardList (g : GuardId) (gs : List GuardId) : List GuardId :=
  match gs.findIdx? (· = g) with
  | some i => gs.eraseIdx i
  | none => gs

/-- `removeGuard` on the config record. -/
def removeGuard (g : GuardId) (cfg : RouterConfig) : RouterConfig :=
  { cfg with guards := removeGuardList g cfg.guards }

/-- `clearGuards`. -/
def clearGuards (cfg : RouterConfig) : RouterConfig :=
  { cfg with guards := [] }

/-- `getHistory`: defensive copy of the history list. -/
def getHistory (cfg : RouterConfig) : List JStr :=
  cfg.history

/-- `clearHistory`. -/
def clearHistory (cfg : RouterConfig) : RouterConfig :=
  { cfg with history := [] }

/-- `executeGuards`, instrumented with the ordered trace of the guards
actually invoked.  Each guard is awaited in turn; a falsy result or a
thrown / rejected guard stops evaluation with overall result `false`
(the error is swallowed); an empty registry yields `true`. -/
def executeGuardsAux (env : GuardEnv) (toUrl fromUrl : JStr) (params : Option ParamsL) :
    List GuardId → Bool × List GuardId
  | [] => (true, [])
  | g :: rest =>
    match env g toUrl fromUrl params with
    | .ok true =>
      let r := executeGuardsAux env toUrl fromUrl params rest
      (r.1, g :: r.2)
    | .ok false => (false, [g])
    | .err => (false, [g])

/-- `executeGuards`: the boolean verdict. -/
def executeGuards (env : GuardEnv) (gs : List GuardId) (toUrl fromUrl : JStr)
    (params : Option ParamsL) : Bool :=
  (executeGuardsAux env toUrl fromUrl params gs).1

/-- `recordHistory` on the history list: push, then a single `shift`
when the length exceeds `maxHistorySize`. -/
def recordHistoryL (maxSize : Nat) (history : List JStr) (url : JStr) : List JStr :=
  let h := history ++ [url]
  if maxSize < h.length then h.drop 1 else h

/-- `recordHistory` on the config record. -/
def recordHistory (cfg : RouterConfig) (url : JStr) : RouterConfig :=
  { cfg with history := recordHistoryL cfg.maxHistorySize cfg.history url }

/-! ## The navigate pipeline (src/unnamed/part_001)

The host navigation primitives (`uni.navigateTo`, …) are external
collaborators: the model records which primitive is called with which
argument (`HostCall`) and takes the host-reported outcome
(`HostOutcome`) as an input.  Caller callbacks are modelled by
recording, in `NavResult`, whether the pipeline invoked the optional
`success` / `fail` / `complete` callbacks and with which payload.  The
settlement of the promise returned by the `async` function `navigate`
is `promise` (the function body has no `await` after the guard stage
and never rethrows, so it returns normally in every branch). -/

/-- Which host primitive the dispatcher invoked, with its argument. -/
inductive HostCall where
  | navigateTo : JStr → HostCall
  | redirectTo : JStr → HostCall
  | reLaunch : JStr → HostCall
  | switchTab : JStr → HostCall
  | navigateBack : Nat → HostCall
deriving DecidableEq

/-- Outcome reported by the host primitive through its callbacks. -/
inductive HostOutcome where
  | success : HostOutcome
  | failure : JStr → HostOutcome
deriving DecidableEq

/-- `HostOutcome.isSuccess`. -/
def HostOutcome.isSuccess : HostOutcome → Bool
  | .success => true
  | .failure _ => false

/-- Payload handed to the caller's `fail` callback. -/
inductive FailPayload where
  | guardIntercept : FailPayload
  | unknownType : JStr → FailPayload
  | hostError : JStr → FailPayload
deriving DecidableEq

/-- Settlement of the promise returned by `navigate`. -/
inductive PromiseOutcome where
  | resolved : PromiseOutcome
  | rejected : PromiseOutcome
deriving DecidableEq

/-- Observable result of one `navigate` call (besides the config). -/
structure NavResult where
  hostCall : Option HostCall
  successCalled : Bool
  failCalled : Option FailPayload
  completeCalled : Bool
  promise : PromiseOutcome
deriving DecidableEq

/-- The `NavigateOptions` argument of `navigate`.  The runtime value of
`type` is a string (the five recognized values or anything else a
JavaScript caller passes); default `'navigateTo'`. -/
structure NavigateOptions where
  url : JStr
  type : JStr := "navigateTo".toList
  params : Option ParamsL := none

/-- Callback forwarding for a recognized transition: the host invokes
`success` or `fail` (with its error payload) and always `complete`. -/
def hostReport (call : HostCall) (host : HostOutcome) : NavResult :=
  match host with
  | .success =>
    { hostCall := some call, successCalled := true, failCalled := none,
      completeCalled := true, promise := .resolved }
  | .failure e =>
    { hostCall := some call, successCalled := false, failCalled := some (.hostError e),
      completeCalled := true, promise := .resolved }

/-- The five recognized transition kinds. -/
def recognizedType (t : JStr) : Bool :=
  t = "navigateTo".toList || t = "redirectTo".toList || t = "reLaunch".toList ||
    t = "switchTab".toList || t = "navigateBack".toList

/-- `navigate` from the router module: builds the full URL, awaits the
guards against `(url, currentPath, params)`, on rejection reports
through `fail`/`complete` and returns; otherwise records history and
dispatches on `type`, where the default branch's `throw` is caught by
the surrounding try/catch and reported through `fail`/`complete`. -/
def navigate (env : GuardEnv) (cfg : RouterConfig) (o : NavigateOptions)
    (currentPath : JStr) (host : HostOutcome) : RouterConfig × NavResult :=
  let fullUrl := buildUrl o.url o.params
  let canNavigate := executeGuards env cfg.guards o.url currentPath o.params
  if canNavigate = false then
    (cfg, { hostCall := none, successCalled := false, failCalled := some .guardIntercept,
            completeCalled := true, promise := .resolved })
  else
    let cfg' := recordHistory cfg fullUrl
    let r :=
      if o.type = "navigateTo".toList then hostReport (.navigateTo fullUrl) host
      else if o.type = "redirectTo".toList then hostReport (.redirectTo fullUrl) host
      else if o.type = "reLaunch".toList then hostReport (.reLaunch fullUrl) host
      else if o.type = "switchTab".toList then hostReport (.switchTab o.url) host
      else if o.type = "navigateBack".toList then hostReport (.navigateBack 1) host
      else
        { hostCall := none, successCalled := false, failCalled := some (.unknownType o.type),
          completeCalled := true, promise := .resolved }
    (cfg', r)

/-! ## navigateBackTo (src/unnamed/part_001) -/

/-- A page-stack entry as reported by `getCurrentPages()`. -/
structure UniPage where
  route : JStr

/-- Settlement of the promise returned by `navigateBackTo`. -/
inductive BackToOutcome where
  | notFound : BackToOutcome
  | resolved : BackToOutcome
  | backDelegated : Nat → BackToOutcome
deriving DecidableEq

/-- `navigateBackTo(url)`: finds the first stack entry with
`/${page.route} === url`; rejects with a not-found error when absent;
computes `delta = pages.length - 1 - targetIndex`, resolves immediately
when `delta <= 0`, otherwise delegates to `navigateBack({ delta })`. -/
def navigateBackTo (pages : List UniPage) (url : JStr) : BackToOutcome :=
  match pages.findIdx? (fun p => '/' :: p.route = url) with
  | none => .notFound
  | some i =>
    let delta : Int := (pages.length : Int) - 1 - (i : Int)
    if delta ≤ 0 then .resolved else .backDelegated delta.toNat

/-! ## parseUrlParams (src/unnamed/part_003) and its collaborators

`decodeURIComponent` is modelled in two phases: percent-escapes are
first turned into bytes (`toItems`), then byte runs are UTF-8 decoded
(`itemsToChars`); a malformed escape or byte sequence is a `URIError`,
modelled as `none`.  `JSON.parse` is modelled by an executable
fuel-indexed parser; JSON numbers are restricted to integers (a
fractional or exponent-bearing literal makes the model's parse fail,
which is outside the scope of every theorem below). -/

/-- Hexadecimal digit value (both cases accepted, as in percent
decoding). -/
def unhex (c : Char) : Option Nat :=
  if '0' ≤ c ∧ c ≤ '9' then some (c.toNat - 48)
  else if 'A' ≤ c ∧ c ≤ 'F' then some (c.toNat - 55)
  else if 'a' ≤ c ∧ c ≤ 'f' then some (c.toNat - 87)
  else none

/-- One unit of a percent-encoded string: a literal character or a
decoded escape byte. -/
inductive UriItem where
  | ch : Char → UriItem
  | byte : Nat → UriItem

/-- Phase one of `decodeURIComponent`: replace each `%XY` escape by its
byte; a `%` not followed by two hexadecimal digits is a `URIError`. -/
def toItems : JStr → Option (List UriItem)
  | [] => some []
  | c :: cs =>
    if c = '%' then
      match cs with
      | a :: b :: rest =>
        match unhex a, unhex b with
        | some x, some y => (toItems rest).map (UriItem.byte (16 * x + y) :: ·)
        | _, _ => none
      | _ => none
    else (toItems cs).map (UriItem.ch c :: ·)

/-- UTF-8 continuation byte test. -/
def isCont (b : Nat) : Bool :=
  decide (128 ≤ b) && decide (b < 192)

/-- Phase two of `decodeURIComponent`, processed one item at a time.
The state is `none` between code points, or `some (acc, k, m)` inside a
multi-byte UTF-8 sequence: accumulated value, continuation bytes still
expected, and the minimum value of the finished code point (for the
overlong check).  A stray or missing continuation byte, an overlong
form, a surrogate or an out-of-range code point is a `URIError`
(`decodeURIComponent` throws on all of these). -/
def itemsToCharsAux : List UriItem → Option (Nat × Nat × Nat) → Option (List Char)
  | [], none => some []
  | [], some _ => none
  | .ch c :: rest, none => (itemsToCharsAux rest none).map (c :: ·)
  | .ch _ :: _, some _ => none
  | .byte b :: rest, none =>
    if b < 128 then (itemsToCharsAux rest none).map (Char.ofNat b :: ·)
    else if b < 192 then none
    else if b < 224 then itemsToCharsAux rest (some (b - 192, 1, 128))
    else if b < 240 then itemsToCharsAux rest (some (b - 224, 2, 2048))
    else if b < 248 then itemsToCharsAux rest (some (b - 240, 3, 65536))
    else none
  | .byte b :: rest, some (acc, k, m) =>
    if isCont b then
      let acc2 := 64 * acc + (b - 128)
      if k = 1 then
        if m ≤ acc2 ∧ (acc2 < 55296 ∨ 57343 < acc2) ∧ acc2 < 1114112 then
          (itemsToCharsAux rest none).map (Char.ofNat acc2 :: ·)
        else none
      else itemsToCharsAux rest (some (acc2, k - 1, m))
    else none

/-- UTF-8 decoding of the item list, started between code points. -/
def itemsToChars (l : List UriItem) : Option (List Char) :=
  itemsToCharsAux l none

/-- `decodeURIComponent`; `none` models a thrown `URIError`. -/
def decodeURIComponent (s : JStr) : Option JStr :=
  (toItems s).bind itemsToChars

/-- `url.indexOf('?')` followed by `url.substring(queryIndex + 1)`:
the text after the first `?`, or `none` when there is no `?`. -/
def findQuery : JStr → Option JStr
  | [] => none
  | c :: cs => if c = '?' then some cs else findQuery cs

/-- `String.prototype.split(sep)` for a one-character separator
(`"".split(sep)` is `[""]`, as in JavaScript). -/
def splitOnChar (sep : Char) : JStr → List JStr
  | [] => [[]]
  | c :: cs =>
    let r := splitOnChar sep cs
    if c = sep then [] :: r
    else
      match r with
      | [] => [[c]]
      | s :: rest => (c :: s) :: rest

/-- `params[key] = value` on an insertion-ordered record: overwrite in
place when the key exists, append otherwise. -/
def insertOrAssign (l : ParamsL) (k : JStr) (v : JValue) : ParamsL :=
  match l with
  | [] => [(k, v)]
  | (k', v') :: rest =>
    if k' = k then (k, v) :: rest else (k', v') :: insertOrAssign rest k v

/-- JSON whitespace. -/
def isJsonWs (c : Char) : Bool :=
  c = ' ' || c = '\t' || c = '\n' || c = '\r'

/-- Skip JSON whitespace. -/
def skipWs (s : JStr) : JStr :=
  s.dropWhile isJsonWs

/-- Body of a JSON string literal after the opening quote: returns the
decoded text and the remainder after the closing quote.  `\uXXXX`
escapes denoting surrogate halves are out of the model's scope and
fail. -/
def parseJsonString : JStr → Option (JStr × JStr)
  | [] => none
  | '"' :: rest => some ([], rest)
  | '\\' :: 'u' :: a :: b :: c :: d :: rest => do
    let x ← unhex a
    let y ← unhex b
    let z ← unhex c
    let w ← unhex d
    let n := 4096 * x + 256 * y + 16 * z + w
    if n < 55296 ∨ 57343 < n then
      let (s, r) ← parseJsonString rest
      some (Char.ofNat n :: s, r)
    else none
  | '\\' :: e :: rest => do
    let c ← (match e with
      | '"' => some '"'
      | '\\' => some '\\'
      | '/' => some '/'
      | 'n' => some '\n'
      | 't' => some '\t'
      | 'r' => some '\r'
      | 'b' => some (Char.ofNat 8)
      | 'f' => some (Char.ofNat 12)
      | _ => none)
    let (s, r) ← parseJsonString rest
    some (c :: s, r)
  | c :: rest =>
    if c.toNat < 32 then none
    else do
      let (s, r) ← parseJsonString rest
      some (c :: s, r)

/-- A JSON number literal, restricted to integers: optional minus,
digits without a redundant leading zero, no fraction or exponent. -/
def parseJsonNumber (s : JStr) : Option (JValue × JStr) :=
  let neg := match s with
    | '-' :: r => (true, r)
    | _ => (false, s)
  match neg.2 with
  | [] => none
  | c :: _ =>
    if c.isDigit then
      let digits := neg.2.takeWhile Char.isDigit
      let rest := neg.2.dropWhile Char.isDigit
      if 1 < digits.length ∧ digits.headD '0' = '0' then none
      else
        match rest with
        | '.' :: _ => none
        | 'e' :: _ => none
        | 'E' :: _ => none
        | _ =>
          let n : Nat := digits.foldl (fun acc d => 10 * acc + (d.toNat - 48)) 0
          some (.num (if neg.1 then -(n : Int) else (n : Int)), rest)
    else none

mutual

/-- Fuel-indexed JSON value parser (`JSON.parse` model). -/
def parseJsonValue (fuel : Nat) (s : JStr) : Option (JValue × JStr) :=
  match fuel with
  | 0 => none
  | fuel + 1 =>
    match skipWs s with
    | 'n' :: 'u' :: 'l' :: 'l' :: rest => some (.null, rest)
    | 't' :: 'r' :: 'u' :: 'e' :: rest => some (.bool true, rest)
    | 'f' :: 'a' :: 'l' :: 's' :: 'e' :: rest => some (.bool false, rest)
    | '"' :: rest => (parseJsonString rest).map fun p => (.str p.1, p.2)
    | '[' :: rest =>
      (match skipWs rest with
       | ']' :: rest2 => some (.arr [], rest2)
       | _ => (parseJsonItems fuel rest).map fun p => (.arr p.1, p.2))
    | '{' :: rest =>
      (match skipWs rest with
       | '}' :: rest2 => some (.obj [], rest2)
       | _ => (parseJsonMembers fuel rest).map fun p => (.obj p.1, p.2))
    | s' => parseJsonNumber s'

/-- Comma-separated array items up to the closing bracket. -/
def parseJsonItems (fuel : Nat) (s : JStr) : Option (List JValue × JStr) :=
  match fuel with
  | 0 => none
  | fuel + 1 => do
    let (v, r) ← parseJsonValue fuel s
    match skipWs r with
    | ',' :: r2 => do
      let (vs, r3) ← parseJsonItems fuel r2
      some (v :: vs, r3)
    | ']' :: r2 => some ([v], r2)
    | _ => none

/-- Comma-separated object members up to the closing brace. -/
def parseJsonMembers (fuel : Nat) (s : JStr) : Option (ParamsL × JStr) :=
  match fuel with
  | 0 => none
  | fuel + 1 =>
    match skipWs s with
    | '"' :: rest => do
      let (k, r) ← parseJsonString rest
      match skipWs r with
      | ':' :: r2 => do
        let (v, r3) ← parseJsonValue fuel r2
        match skipWs r3 with
        | ',' :: r4 => do
          let (kvs, r5) ← parseJsonMembers fuel r4
          some ((k, v) :: kvs, r5)
        | '}' :: r4 => some ([(k, v)], r4)
        | _ => none
      | _ => none
    | _ => none

end

/-- `JSON.parse`: parse one value and require only trailing whitespace. -/
def jsonParse (s : JStr) : Option JValue :=
  match parseJsonValue (s.length + 1) s with
  | some (v, r) => if skipWs r = [] then some v else none
  | none => none

/-- `try { JSON.parse(text) } catch { text }`. -/
def jsonParseOrString (s : JStr) : JValue :=
  match jsonParse s with
  | some v => v
  | none => .str s

/-- The `forEach` loop of `parseUrlParams` over the `&`-separated
pairs: split each pair on `=`, skip empty keys, decode the value (a
`URIError` from `decodeURIComponent` escapes the function, modelled as
`none`; an absent value is JavaScript's `undefined`, coerced to the
text `undefined`), JSON-parse it with string fallback, and assign. -/
def parsePairs : List JStr → ParamsL → Option ParamsL
  | [], acc => some acc
  | pair :: rest, acc =>
    let parts := splitOnChar '=' pair
    let key := parts.headD []
    let rawValue := (parts[1]?).getD "undefined".toList
    if key = [] then parsePairs rest acc
    else
      match decodeURIComponent rawValue with
      | none => none
      | some dec => parsePairs rest (insertOrAssign acc key (jsonParseOrString dec))

/-- `parseUrlParams` from the page module: empty record when the URL
has no `?`, otherwise the accumulated record of the `&`-separated
`key=value` pairs after the first `?`. -/
def parseUrlParams (url : JStr) : Option ParamsL :=
  match findQuery url with
  | none => some []
  | some queryString => parsePairs (splitOnChar '&' queryString) []

/-- The `UriItem` list that phase one of decoding recovers from the
encoding of one character: the character itself when unreserved, its
UTF-8 bytes otherwise. -/
def encItems (c : Char) : List UriItem :=
  if isUnreserved c then [.ch c] else (utf8Bytes c.toNat).map .byte

/-! ## Helper lemmas about guard evaluation, removal and history -/

theorem execAux_all_pass (env : GuardEnv) (toUrl fromUrl : JStr) (params : Option ParamsL) :
    ∀ gs : List GuardId, (∀ g ∈ gs, env g toUrl fromUrl params = .ok true) →
      executeGuardsAux env toUrl fromUrl params gs = (true, gs) := by
  intro gs
  induction gs with
  | nil => intro _; rfl
  | cons g rest ih =>
    intro hall
    have hg := hall g (List.mem_cons_self g rest)
    have hrest := ih fun x hx => hall x (List.mem_cons_of_mem g hx)
    simp [executeGuardsAux, hg, hrest]

theorem execAux_stops (env : GuardEnv) (toUrl fromUrl : JStr) (params : Option ParamsL) :
    ∀ (pre : List GuardId) (g : GuardId) (post : List GuardId),
      (∀ x ∈ pre, env x toUrl fromUrl params = .ok true) →
      (env g toUrl fromUrl params = .ok false ∨ env g toUrl fromUrl params = .err) →
      executeGuardsAux env toUrl fromUrl params (pre ++ g :: post) = (false, pre ++ [g]) := by
  intro pre
  induction pre with
  | nil =>
    intro g post _ hg
    rcases hg with hg | hg <;> simp [executeGuardsAux, hg]
  | cons a rest ih =>
    intro g post hall hg
    have ha := hall a (List.mem_cons_self a rest)
    have := ih g post (fun x hx => hall x (List.mem_cons_of_mem a hx)) hg
    simp [executeGuardsAux, ha, this]

theorem findIdx_pre_append (g : GuardId) (post : List GuardId) :
    ∀ (pre : List GuardId) (i : Nat), g ∉ pre →
      List.findIdx? (· = g) (pre ++ g :: post) i = some (i + pre.length) := by
  intro pre
  induction pre with
  | nil => intro i _; simp [List.findIdx?_cons]
  | cons a rest ih =>
    intro i hnot
    have hne : ¬ (a = g) := fun h => hnot (h ▸ List.mem_cons_self a rest)
    have hrec := ih (i + 1) fun h => hnot (List.mem_cons_of_mem a h)
    rw [List.cons_append, List.findIdx?_cons, if_neg (by simp [hne]), hrec]
    congr 1
    simp
    omega

theorem eraseIdx_pre_append (g : GuardId) (post : List GuardId) :
    ∀ pre : List GuardId, (pre ++ g :: post).eraseIdx pre.length = pre ++ post := by
  intro pre
  induction pre with
  | nil => simp [List.eraseIdx]
  | cons a rest ih => simp [List.eraseIdx, ih]

theorem recordHistoryL_length_le (maxSize : Nat) (h : List JStr) (u : JStr)
    (hle : h.length ≤ maxSize) : (recordHistoryL maxSize h u).length ≤ maxSize := by
  simp only [recordHistoryL]
  split
  · simpa using hle
  · simp_all

theorem foldl_record_length_le (maxSize : Nat) :
    ∀ (urls : List JStr) (h : List JStr), h.length ≤ maxSize →
      (urls.foldl (recordHistoryL maxSize) h).length ≤ maxSize := by
  intro urls
  induction urls with
  | nil => intro h hle; simpa using hle
  | cons u rest ih =>
    intro h hle
    exact ih _ (recordHistoryL_length_le maxSize h u hle)

theorem foldl_record_short (maxSize : Nat) :
    ∀ (urls : List JStr) (h : List JStr), h.length + urls.length ≤ maxSize →
      urls.foldl (recordHistoryL maxSize) h = h ++ urls := by
  intro urls
  induction urls with
  | nil => intro h _; simp
  | cons u rest ih =>
    intro h hle
    have hlen : h.length + rest.length + 1 ≤ maxSize := by
      simp only [List.length_cons] at hle
      omega
    simp only [List.foldl_cons]
    have hstep : recordHistoryL maxSize h u = h ++ [u] := by
      simp only [recordHistoryL]
      rw [if_neg (by simp; omega)]
    rw [hstep, ih (h ++ [u]) (by simp; omega)]
    simp

theorem foldl_record_overflow (maxSize : Nat) (urls : List JStr)
    (hlen : urls.length = maxSize + 1) :
    urls.foldl (recordHistoryL maxSize) [] = urls.drop 1 := by
  have hne : urls ≠ [] := by
    intro h
    rw [h] at hlen
    simp at hlen
  have hdecomp := List.dropLast_append_getLast hne
  set front := urls.dropLast with hfront
  set lastu := urls.getLast hne with hlast
  have hflen : front.length = maxSize := by
    rw [hfront, List.length_dropLast, hlen]
    omega
  calc urls.foldl (recordHistoryL maxSize) []
      = (front ++ [lastu]).foldl (recordHistoryL maxSize) [] := by rw [hdecomp]
    _ = recordHistoryL maxSize (front.foldl (recordHistoryL maxSize) []) lastu := by
        rw [List.foldl_append]
        rfl
    _ = recordHistoryL maxSize front lastu := by
        rw [foldl_record_short maxSize front [] (by simp [hflen])]
        simp
    _ = (front ++ [lastu]).drop 1 := by
        simp only [recordHistoryL]
        rw [if_pos (by simp only [List.length_append, List.length_cons,
          List.length_nil, hflen]; omega)]
    _ = urls.drop 1 := by rw [hdecomp]

/-! ## Claim theorems: guard evaluation, registry, history -/

/-- C4: `executeGuards` awaits the registered guards strictly in
registration order; the first falsy result stops evaluation (the trace
of invoked guards is exactly the passing prefix plus the stopping
guard, so no later guard is invoked) with overall result `false`; a
guard that throws or rejects likewise yields `false` without the
exception propagating (the evaluator returns a boolean); if every guard
passes, or the sequence is empty, the result is `true`. -/
theorem executeGuards_order_shortcircuit_swallow
    (env : GuardEnv) (toUrl fromUrl : JStr) (params : Option ParamsL) :
    executeGuards env [] toUrl fromUrl params = true
    ∧ (∀ gs : List GuardId, (∀ g ∈ gs, env g toUrl fromUrl params = .ok true) →
        executeGuardsAux env toUrl fromUrl params gs = (true, gs))
    ∧ (∀ (pre : List GuardId) (g : GuardId) (post : List GuardId),
        (∀ x ∈ pre, env x toUrl fromUrl params = .ok true) →
        (env g toUrl fromUrl params = .ok false ∨ env g toUrl fromUrl params = .err) →
        executeGuardsAux env toUrl fromUrl params (pre ++ g :: post) = (false, pre ++ [g])) := by
  refine ⟨rfl, execAux_all_pass env toUrl fromUrl params, ?_⟩
  intro pre g post hpre hg
  exact execAux_stops env toUrl fromUrl params pre g post hpre hg

/-- Witness for C4 at concrete inputs: three guards where the second
rejects; only the first two are invoked. -/
theorem executeGuards_order_shortcircuit_swallow_witness :
    executeGuardsAux
      (fun g _ _ _ => if g = 2 then .ok false else .ok true)
      "/a".toList "/b".toList none ([1] ++ 2 :: [3]) = (false, [1] ++ [2]) :=
  (executeGuards_order_shortcircuit_swallow
      (fun g _ _ _ => if g = 2 then .ok false else .ok true)
      "/a".toList "/b".toList none).2.2 [1] 2 [3]
    (by intro x hx; simp at hx; simp [hx]) (Or.inl (by simp))

/-- C10: when the same guard value occurs in the registry, one
`removeGuard` call deletes exactly the earliest occurrence: the list
becomes the part before plus the part after that occurrence, the
occurrence count drops by one, the relative order of all other guards
is unchanged, and evaluation still invokes exactly the remaining
occurrences (the trace equals the remaining list when all pass). -/
theorem removeGuard_earliest_occurrence
    (pre post : List GuardId) (g : GuardId) (hpre : g ∉ pre) :
    removeGuardList g (pre ++ g :: post) = pre ++ post
    ∧ (pre ++ post).count g = (pre ++ g :: post).count g - 1
    ∧ (pre ++ post).filter (fun x => x ≠ g) = (pre ++ g :: post).filter (fun x => x ≠ g)
    ∧ (∀ (env : GuardEnv) (toUrl fromUrl : JStr) (params : Option ParamsL),
        (∀ x ∈ pre ++ post, env x toUrl fromUrl params = .ok true) →
        executeGuardsAux env toUrl fromUrl params (pre ++ post) = (true, pre ++ post)) := by
  refine ⟨?_, ?_, ?_, ?_⟩
  · simp only [removeGuardList]
    rw [findIdx_pre_append g post pre 0 hpre]
    simpa using eraseIdx_pre_append g post pre
  · simp [List.count_append, List.count_cons]
  · simp [List.filter_append, List.filter_cons]
  · intro env toUrl fromUrl params hall
    exact execAux_all_pass env toUrl fromUrl params (pre ++ post) hall

/-- Witness for C10: the guard registered at positions 0 and 2 loses
its first occurrence only. -/
theorem removeGuard_earliest_occurrence_witness :
    removeGuardList 1 ([] ++ 1 :: [2, 1]) = [] ++ [2, 1]
    ∧ ([] ++ [2, 1] : List GuardId).count 1 = ([] ++ 1 :: [2, 1]).count 1 - 1 :=
  ⟨(removeGuard_earliest_occurrence [] [2, 1] 1 (by simp)).1,
   (removeGuard_earliest_occurrence [] [2, 1] 1 (by simp)).2.1⟩

/-- C6: the history buffer length never exceeds the configured capacity
(default 50, the initial `maxHistorySize`) after any sequence of
`recordHistory` calls from any state within capacity; after
capacity + 1 insertions from an empty buffer the result is the
insertions minus the first, so with distinct entries the oldest is
absent while the newest is present. -/
theorem history_capacity_and_fifo (maxSize : Nat) :
    initialConfig.maxHistorySize = 50
    ∧ (∀ h : List JStr, h.length ≤ maxSize → ∀ urls : List JStr,
        (urls.foldl (recordHistoryL maxSize) h).length ≤ maxSize)
    ∧ (∀ urls : List JStr, urls.length = maxSize + 1 →
        urls.foldl (recordHistoryL maxSize) [] = urls.drop 1)
    ∧ (∀ (u0 : JStr) (rest : List JStr), (u0 :: rest).length = maxSize + 1 →
        (u0 :: rest).Nodup →
        (u0 :: rest).foldl (recordHistoryL maxSize) [] = rest
        ∧ u0 ∉ (u0 :: rest).foldl (recordHistoryL maxSize) []
        ∧ (∀ nw, rest.getLast? = some nw →
            nw ∈ (u0 :: rest).foldl (recordHistoryL maxSize) [])) := by
  refine ⟨rfl, ?_, ?_, ?_⟩
  · intro h hle urls
    exact foldl_record_length_le maxSize urls h hle
  · intro urls hlen
    exact foldl_record_overflow maxSize urls hlen
  · intro u0 rest hlen hnodup
    have hfold : (u0 :: rest).foldl (recordHistoryL maxSize) [] = rest := by
      rw [foldl_record_overflow maxSize (u0 :: rest) hlen]
      rfl
    refine ⟨hfold, ?_, ?_⟩
    · rw [hfold]
      exact (List.nodup_cons.mp hnodup).1
    · intro nw hnw
      rw [hfold]
      obtain ⟨hne, rfl⟩ := List.mem_getLast?_eq_getLast (Option.mem_def.mpr hnw)
      exact List.getLast_mem hne

/-- Witness for C6 at capacity 3: inserting four distinct entries keeps
the last three. -/
theorem history_capacity_and_fifo_witness :
    ("a".toList :: ["b".toList, "c".toList, "d".toList]).foldl (recordHistoryL 3) []
      = ["b".toList, "c".toList, "d".toList]
    ∧ "a".toList ∉
        ("a".toList :: ["b".toList, "c".toList, "d".toList]).foldl (recordHistoryL 3) [] :=
  ⟨((history_capacity_and_fifo 3).2.2.2 "a".toList ["b".toList, "c".toList, "d".toList]
      (by decide) (by decide)).1,
   ((history_capacity_and_fifo 3).2.2.2 "a".toList ["b".toList, "c".toList, "d".toList]
      (by decide) (by decide)).2.1⟩

/-! ## Claim theorems: the navigate pipeline -/

/-- C5: when guard evaluation returns `false`, `navigate` invokes the
caller's failure callback with the guard-rejection payload and the
completion callback, then terminates: the config (in particular the
history buffer) is unchanged and no host primitive is invoked. -/
theorem navigate_guard_rejected
    (env : GuardEnv) (cfg : RouterConfig) (o : NavigateOptions)
    (currentPath : JStr) (host : HostOutcome)
    (hfail : executeGuards env cfg.guards o.url currentPath o.params = false) :
    (navigate env cfg o currentPath host).1 = cfg
    ∧ (navigate env cfg o currentPath host).2 =
        { hostCall := none, successCalled := false, failCalled := some .guardIntercept,
          completeCalled := true, promise := .resolved } := by
  simp [navigate, hfail]

/-- Witness for C5: a single rejecting guard leaves the initial config
untouched and reports the guard interception. -/
theorem navigate_guard_rejected_witness :
    (navigate (fun _ _ _ _ => .ok false) { initialConfig with guards := [0] }
        { url := "/pages/admin/index".toList } "".toList .success).1
      = { initialConfig with guards := [0] }
    ∧ (navigate (fun _ _ _ _ => .ok false) { initialConfig with guards := [0] }
        { url := "/pages/admin/index".toList } "".toList .success).2
      = { hostCall := none, successCalled := false, failCalled := some .guardIntercept,
          completeCalled := true, promise := .resolved } :=
  navigate_guard_rejected (fun _ _ _ _ => .ok false) { initialConfig with guards := [0] }
    { url := "/pages/admin/index".toList } "".toList .success rfl

/-- C7: when guard evaluation returns `true`, exactly one entry — the
fully built destination URL — is recorded into the history buffer, for
every transition kind and regardless of the host outcome. -/
theorem navigate_appends_one_history_entry
    (env : GuardEnv) (cfg : RouterConfig) (o : NavigateOptions) (currentPath : JStr)
    (hpass : executeGuards env cfg.guards o.url currentPath o.params = true) :
    ∀ host : HostOutcome,
      (navigate env cfg o currentPath host).1.history
        = recordHistoryL cfg.maxHistorySize cfg.history (buildUrl o.url o.params)
      ∧ (cfg.history.length < cfg.maxHistorySize →
          (navigate env cfg o currentPath host).1.history
            = cfg.history ++ [buildUrl o.url o.params]) := by
  intro host
  constructor
  · simp [navigate, hpass, recordHistory]
  · intro hlt
    simp only [navigate, hpass]
    simp [recordHistory, recordHistoryL]
    omega

/-- Witness for C7: with no guards registered, navigating to
`/pages/detail` with `id=123` appends exactly `/pages/detail?id=123`. -/
theorem navigate_appends_one_history_entry_witness :
    (navigate (fun _ _ _ _ => .ok true) initialConfig
        { url := "/pages/detail".toList,
          params := some [("id".toList, JValue.num 123)] } "".toList .success).1.history
      = [] ++ ["/pages/detail?id=123".toList] :=
  ((navigate_appends_one_history_entry (fun _ _ _ _ => .ok true) initialConfig
      { url := "/pages/detail".toList, params := some [("id".toList, JValue.num 123)] }
      "".toList rfl .success).2 (by decide)).trans (by rfl)

/-- C8: a `switchTab` transition passes only the raw path to the host
switch-tab primitive: whatever `params` the caller supplies are never
encoded into the destination handed to the host. -/
theorem navigate_switchTab_raw_path
    (env : GuardEnv) (cfg : RouterConfig) (o : NavigateOptions)
    (currentPath : JStr) (host : HostOutcome)
    (htype : o.type = "switchTab".toList)
    (hpass : executeGuards env cfg.guards o.url currentPath o.params = true) :
    (navigate env cfg o currentPath host).2.hostCall = some (.switchTab o.url) := by
  simp only [navigate, hpass]
  rw [htype]
  cases host <;> simp [hostReport]

/-- Witness for C8: `switchTab` to `/pages/home` with a mistakenly
supplied parameter record still dispatches the raw path. -/
theorem navigate_switchTab_raw_path_witness :
    (navigate (fun _ _ _ _ => .ok true) initialConfig
        { url := "/pages/home".toList, type := "switchTab".toList,
          params := some [("id".toList, JValue.num 1)] } "".toList .success).2.hostCall
      = some (.switchTab "/pages/home".toList) :=
  navigate_switchTab_raw_path (fun _ _ _ _ => .ok true) initialConfig
    { url := "/pages/home".toList, type := "switchTab".toList,
      params := some [("id".toList, JValue.num 1)] } "".toList .success rfl rfl

/-- C2 counterexample: a `navigate` call with the unrecognized kind
`bogus` makes no host call, yet mutates the history buffer — the entry
is recorded before the kind is examined, so shared state does change. -/
theorem navigate_unknown_type_mutates_history :
    (navigate (fun _ _ _ _ => .ok true) initialConfig
        { url := "/a".toList, type := "bogus".toList } "".toList .success).2.hostCall = none
    ∧ (navigate (fun _ _ _ _ => .ok true) initialConfig
        { url := "/a".toList, type := "bogus".toList } "".toList .success).1.history
      = ["/a".toList]
    ∧ initialConfig.history = [] :=
  ⟨rfl, rfl, rfl⟩

/-- C2 (amended): a `navigate` call whose kind is none of the five
recognized kinds makes no host call and reports the invalid kind
through the fail and complete callbacks — but only after guard
evaluation and history recording, so the history buffer has already
received the built URL of that call. -/
theorem navigate_unknown_type_reports_after_recording
    (env : GuardEnv) (cfg : RouterConfig) (o : NavigateOptions)
    (currentPath : JStr) (host : HostOutcome)
    (htype : recognizedType o.type = false)
    (hpass : executeGuards env cfg.guards o.url currentPath o.params = true) :
    (navigate env cfg o currentPath host).2.hostCall = none
    ∧ (navigate env cfg o currentPath host).2.failCalled = some (.unknownType o.type)
    ∧ (navigate env cfg o currentPath host).2.completeCalled = true
    ∧ (navigate env cfg o currentPath host).1.history
        = recordHistoryL cfg.maxHistorySize cfg.history (buildUrl o.url o.params) := by
  simp only [recognizedType, Bool.or_eq_false_iff, decide_eq_false_iff_not] at htype
  obtain ⟨⟨⟨⟨h1, h2⟩, h3⟩, h4⟩, h5⟩ := htype
  simp at h1 h2 h3 h4 h5
  simp [navigate, hpass, h1, h2, h3, h4, h5, recordHistory]

/-- Witness for C2's amended theorem at the concrete `bogus` call. -/
theorem navigate_unknown_type_reports_after_recording_witness :
    (navigate (fun _ _ _ _ => .ok true) initialConfig
        { url := "/a".toList, type := "bogus".toList } "".toList .success).2.hostCall = none
    ∧ (navigate (fun _ _ _ _ => .ok true) initialConfig
        { url := "/a".toList, type := "bogus".toList } "".toList .success).2.failCalled
      = some (.unknownType "bogus".toList)
    ∧ (navigate (fun _ _ _ _ => .ok true) initialConfig
        { url := "/a".toList, type := "bogus".toList } "".toList .success).2.completeCalled
      = true
    ∧ (navigate (fun _ _ _ _ => .ok true) initialConfig
        { url := "/a".toList, type := "bogus".toList } "".toList .success).1.history
      = recordHistoryL initialConfig.maxHistorySize initialConfig.history
          (buildUrl "/a".toList none) :=
  navigate_unknown_type_reports_after_recording (fun _ _ _ _ => .ok true) initialConfig
    { url := "/a".toList, type := "bogus".toList } "".toList .success (by decide) rfl

/-- C1 counterexample: a guard-rejected `navigate` call reports the
interception through the fail callback, yet the returned promise
resolves rather than rejecting. -/
theorem navigate_guard_reject_still_resolves :
    (navigate (fun _ _ _ _ => .ok false) { initialConfig with guards := [0] }
        { url := "/pages/admin/index".toList } "".toList .success).2.failCalled
      = some .guardIntercept
    ∧ (navigate (fun _ _ _ _ => .ok false) { initialConfig with guards := [0] }
        { url := "/pages/admin/index".toList } "".toList .success).2.promise
      = .resolved :=
  ⟨rfl, rfl⟩

/-- C1 (amended): the promise returned by `navigate` resolves in every
case — guard rejection, unrecognized kind, host failure and host
success alike; the outcome is reported exclusively through the optional
callbacks: `complete` always fires, `fail` receives the guard-rejection
payload, the host error, or the invalid-kind error according to the
branch, and `success` fires exactly when a host call is made and the
host reports success. -/
theorem navigate_promise_and_callbacks
    (env : GuardEnv) (cfg : RouterConfig) (o : NavigateOptions)
    (currentPath : JStr) (host : HostOutcome) :
    (navigate env cfg o currentPath host).2.promise = .resolved
    ∧ (navigate env cfg o currentPath host).2.completeCalled = true
    ∧ (navigate env cfg o currentPath host).2.failCalled =
        (if executeGuards env cfg.guards o.url currentPath o.params = false then
          some .guardIntercept
         else if recognizedType o.type then
          (match host with
           | .success => none
           | .failure e => some (.hostError e))
         else some (.unknownType o.type))
    ∧ (navigate env cfg o currentPath host).2.successCalled =
        (executeGuards env cfg.guards o.url currentPath o.params
          && recognizedType o.type && host.isSuccess) := by
  by_cases hg : executeGuards env cfg.guards o.url currentPath o.params = false
  · simp [navigate, hg]
  · have hg' : executeGuards env cfg.guards o.url currentPath o.params = true := by
      revert hg
      cases executeGuards env cfg.guards o.url currentPath o.params <;> simp
    by_cases ht : recognizedType o.type = true
    · simp only [recognizedType, Bool.or_eq_true, decide_eq_true_eq] at ht
      rcases ht with ((((h1 | h2) | h3) | h4) | h5) <;>
        cases host <;>
          simp_all [navigate, hostReport, recognizedType, HostOutcome.isSuccess]
    · have ht' : recognizedType o.type = false := by
        revert ht
        cases recognizedType o.type <;> simp
      simp only [recognizedType, Bool.or_eq_false_iff, decide_eq_false_iff_not] at ht'
      obtain ⟨⟨⟨⟨h1, h2⟩, h3⟩, h4⟩, h5⟩ := ht'
      simp at h1 h2 h3 h4 h5
      cases host <;>
        simp_all [navigate, recognizedType, HostOutcome.isSuccess]

/-- C9: `navigateBackTo` rejects with a not-found error when no stack
entry satisfies `/${page.route} === url`; when the first match is at
index `i` it resolves immediately if `i` is the top of the stack
(steps = depth − 1 − i is zero) and otherwise delegates to
`navigateBack` with that positive step count. -/
theorem navigateBackTo_steps
    (pages : List UniPage) (url : JStr) :
    (pages.findIdx? (fun p => '/' :: p.route = url) = none →
      navigateBackTo pages url = .notFound)
    ∧ (∀ i, pages.findIdx? (fun p => '/' :: p.route = url) = some i →
        (i + 1 = pages.length → navigateBackTo pages url = .resolved)
        ∧ (i + 1 < pages.length →
            navigateBackTo pages url = .backDelegated (pages.length - 1 - i))) := by
  constructor
  · intro hnone
    simp [navigateBackTo, hnone]
  · intro i hsome
    constructor
    · intro htop
      simp only [navigateBackTo, hsome]
      rw [if_pos (by omega)]
    · intro hlt
      simp only [navigateBackTo, hsome]
      rw [if_neg (by omega)]
      congr 1
      omega

/-- Witness for C9: on the stack home/detail/settings, going back to
`/home` delegates to `navigateBack` with 2 steps. -/
theorem navigateBackTo_steps_witness :
    navigateBackTo [⟨"home".toList⟩, ⟨"detail".toList⟩, ⟨"settings".toList⟩]
      "/home".toList = .backDelegated 2 :=
  ((navigateBackTo_steps [⟨"home".toList⟩, ⟨"detail".toList⟩, ⟨"settings".toList⟩]
      "/home".toList).2 0 (by decide)).2 (by decide)

/-! ## Helper lemmas for the URL round trip (C3) -/

theorem unhex_hexUpper (x : Nat) (hx : x < 16) : unhex (hexUpper x) = some x := by
  interval_cases x <;> decide

theorem hexUpper_ne_special (x : Nat) (hx : x < 16) :
    hexUpper x ≠ '&' ∧ hexUpper x ≠ '=' := by
  interval_cases x <;> exact ⟨by decide, by decide⟩

theorem utf8Bytes_lt_256 (n : Nat) (hn : n < 1114112) :
    ∀ b ∈ utf8Bytes n, b < 256 := by
  intro b hb
  simp only [utf8Bytes] at hb
  split at hb
  · simp at hb
    omega
  · split at hb
    · simp at hb
      rcases hb with h | h <;> omega
    · split at hb
      · simp at hb
        rcases hb with h | h | h <;> omega
      · simp at hb
        rcases hb with h | h | h | h <;> omega

theorem toItems_escByte (b : Nat) (hb : b < 256) (t : JStr) :
    toItems (escByte b ++ t) = (toItems t).map (UriItem.byte b :: ·) := by
  have h1 : b / 16 < 16 := by omega
  have h2 : b % 16 < 16 := by omega
  have hb' : 16 * (b / 16) + b % 16 = b := by omega
  simp [escByte, toItems, unhex_hexUpper _ h1, unhex_hexUpper _ h2, hb']

theorem char_valid_range (c : Char) :
    c.toNat < 55296 ∨ (57343 < c.toNat ∧ c.toNat < 1114112) := by
  have h := c.valid
  rcases h with h | ⟨h1, h2⟩
  · left
    exact h
  · right
    exact ⟨h1, h2⟩

theorem isUnreserved_ne_percent (c : Char) (h : isUnreserved c = true) : ¬ (c = '%') := by
  intro hc
  rw [hc] at h
  simp [isUnreserved] at h

theorem toItems_encChar (c : Char) (t : JStr) :
    toItems (encChar c ++ t) = (toItems t).map (encItems c ++ ·) := by
  by_cases hu : isUnreserved c = true
  · have hne := isUnreserved_ne_percent c hu
    simp only [encChar, encItems, if_pos hu, List.cons_append, List.nil_append]
    rw [toItems.eq_def]
    simp [hne]
  · have hu' : isUnreserved c = false := by
      revert hu
      cases isUnreserved c <;> simp
    have hlt : c.toNat < 1114112 := by
      rcases char_valid_range c with h | ⟨_, h⟩ <;> omega
    simp only [encChar, encItems, hu', Bool.false_eq_true, if_false]
    have : ∀ bs : List Nat, (∀ b ∈ bs, b < 256) →
        toItems (bs.flatMap escByte ++ t) = (toItems t).map (bs.map UriItem.byte ++ ·) := by
      intro bs
      induction bs with
      | nil =>
        intro _
        simp
      | cons b rest ih =>
        intro hall
        have hb := hall b (List.mem_cons_self b rest)
        have hr := ih fun x hx => hall x (List.mem_cons_of_mem b hx)
        simp only [List.flatMap_cons, List.append_assoc]
        rw [toItems_escByte b hb, hr]
        cases toItems t <;> simp
    exact this (utf8Bytes c.toNat) (utf8Bytes_lt_256 c.toNat hlt)

theorem itemsToCharsAux_one (b0 : Nat) (t : List UriItem) (h : b0 < 128) :
    itemsToCharsAux (UriItem.byte b0 :: t) none
      = (itemsToCharsAux t none).map (Char.ofNat b0 :: ·) := by
  simp only [itemsToCharsAux]
  rw [if_pos h]

theorem itemsToCharsAux_two (b0 b1 : Nat) (t : List UriItem)
    (h0 : 192 ≤ b0) (h0x : b0 < 224) (h1 : 128 ≤ b1) (h1x : b1 < 192)
    (hmin : 128 ≤ 64 * (b0 - 192) + (b1 - 128)) :
    itemsToCharsAux (UriItem.byte b0 :: UriItem.byte b1 :: t) none
      = (itemsToCharsAux t none).map (Char.ofNat (64 * (b0 - 192) + (b1 - 128)) :: ·) := by
  have hcont : isCont b1 = true := by
    simp only [isCont, Bool.and_eq_true, decide_eq_true_eq]
    omega
  simp only [itemsToCharsAux]
  rw [if_neg (by omega), if_neg (by omega), if_pos (by omega), if_pos hcont]
  rw [if_pos trivial, if_pos (by omega)]

theorem itemsToCharsAux_three (b0 b1 b2 : Nat) (t : List UriItem)
    (h0 : 224 ≤ b0) (h0x : b0 < 240) (h1 : 128 ≤ b1) (h1x : b1 < 192)
    (h2 : 128 ≤ b2) (h2x : b2 < 192)
    (hmin : 2048 ≤ 64 * (64 * (b0 - 224) + (b1 - 128)) + (b2 - 128))
    (hsur : 64 * (64 * (b0 - 224) + (b1 - 128)) + (b2 - 128) < 55296
      ∨ 57343 < 64 * (64 * (b0 - 224) + (b1 - 128)) + (b2 - 128)) :
    itemsToCharsAux (UriItem.byte b0 :: UriItem.byte b1 :: UriItem.byte b2 :: t) none
      = (itemsToCharsAux t none).map
          (Char.ofNat (64 * (64 * (b0 - 224) + (b1 - 128)) + (b2 - 128)) :: ·) := by
  have hcont1 : isCont b1 = true := by
    simp only [isCont, Bool.and_eq_true, decide_eq_true_eq]
    omega
  have hcont2 : isCont b2 = true := by
    simp only [isCont, Bool.and_eq_true, decide_eq_true_eq]
    omega
  simp only [itemsToCharsAux]
  rw [if_neg (by omega), if_neg (by omega), if_neg (by omega), if_pos (by omega),
    if_pos hcont1]
  rw [if_neg (by omega), if_pos hcont2, if_pos trivial, if_pos (by omega)]

theorem itemsToCharsAux_four (b0 b1 b2 b3 : Nat) (t : List UriItem)
    (h0 : 240 ≤ b0) (h0x : b0 < 248) (h1 : 128 ≤ b1) (h1x : b1 < 192)
    (h2 : 128 ≤ b2) (h2x : b2 < 192) (h3 : 128 ≤ b3) (h3x : b3 < 192)
    (hmin : 65536 ≤ 64 * (64 * (64 * (b0 - 240) + (b1 - 128)) + (b2 - 128)) + (b3 - 128))
    (hmax : 64 * (64 * (64 * (b0 - 240) + (b1 - 128)) + (b2 - 128)) + (b3 - 128) < 1114112) :
    itemsToCharsAux
        (UriItem.byte b0 :: UriItem.byte b1 :: UriItem.byte b2 :: UriItem.byte b3 :: t) none
      = (itemsToCharsAux t none).map
          (Char.ofNat (64 * (64 * (64 * (b0 - 240) + (b1 - 128)) + (b2 - 128)) + (b3 - 128))
            :: ·) := by
  have hcont1 : isCont b1 = true := by
    simp only [isCont, Bool.and_eq_true, decide_eq_true_eq]
    omega
  have hcont2 : isCont b2 = true := by
    simp only [isCont, Bool.and_eq_true, decide_eq_true_eq]
    omega
  have hcont3 : isCont b3 = true := by
    simp only [isCont, Bool.and_eq_true, decide_eq_true_eq]
    omega
  simp only [itemsToCharsAux]
  rw [if_neg (by omega), if_neg (by omega), if_neg (by omega), if_neg (by omega),
    if_pos (by omega), if_pos hcont1]
  rw [if_neg (by omega), if_pos hcont2, if_neg (by omega), if_pos hcont3,
    if_pos trivial, if_pos (by omega)]

theorem itemsToChars_utf8 (n : Nat)
    (hvalid : n < 55296 ∨ (57343 < n ∧ n < 1114112)) (t : List UriItem) :
    itemsToChars ((utf8Bytes n).map UriItem.byte ++ t)
      = (itemsToChars t).map (Char.ofNat n :: ·) := by
  simp only [itemsToChars]
  by_cases h1 : n < 128
  · have hb : utf8Bytes n = [n] := by
      simp only [utf8Bytes]
      rw [if_pos h1]
    rw [hb]
    simp only [List.map_cons, List.map_nil, List.cons_append, List.nil_append]
    exact itemsToCharsAux_one n t h1
  · by_cases h2 : n < 2048
    · have hb : utf8Bytes n = [192 + n / 64, 128 + n % 64] := by
        simp only [utf8Bytes]
        rw [if_neg h1, if_pos h2]
      have harith : 64 * (192 + n / 64 - 192) + (128 + n % 64 - 128) = n := by omega
      rw [hb]
      simp only [List.map_cons, List.map_nil, List.cons_append, List.nil_append]
      rw [itemsToCharsAux_two (192 + n / 64) (128 + n % 64) t (by omega) (by omega)
        (by omega) (by omega) (by omega)]
      simp only [harith]
    · by_cases h3 : n < 65536
      · have hb : utf8Bytes n = [224 + n / 4096, 128 + n / 64 % 64, 128 + n % 64] := by
          simp only [utf8Bytes]
          rw [if_neg h1, if_neg h2, if_pos h3]
        have harith : 64 * (64 * (224 + n / 4096 - 224) + (128 + n / 64 % 64 - 128))
            + (128 + n % 64 - 128) = n := by omega
        rw [hb]
        simp only [List.map_cons, List.map_nil, List.cons_append, List.nil_append]
        rw [itemsToCharsAux_three (224 + n / 4096) (128 + n / 64 % 64) (128 + n % 64) t
          (by omega) (by omega) (by omega) (by omega) (by omega) (by omega)
          (by omega) (by omega)]
        simp only [harith]
      · have hb : utf8Bytes n
            = [240 + n / 262144, 128 + n / 4096 % 64, 128 + n / 64 % 64, 128 + n % 64] := by
          simp only [utf8Bytes]
          rw [if_neg h1, if_neg h2, if_neg h3]
        have harith : 64 * (64 * (64 * (240 + n / 262144 - 240) + (128 + n / 4096 % 64 - 128))
            + (128 + n / 64 % 64 - 128)) + (128 + n % 64 - 128) = n := by omega
        rw [hb]
        simp only [List.map_cons, List.map_nil, List.cons_append, List.nil_append]
        rw [itemsToCharsAux_four (240 + n / 262144) (128 + n / 4096 % 64) (128 + n / 64 % 64)
          (128 + n % 64) t (by omega) (by omega) (by omega) (by omega) (by omega)
          (by omega) (by omega) (by omega) (by omega) (by omega)]
        simp only [harith]

theorem itemsToChars_encItems (c : Char) (t : List UriItem) :
    itemsToChars (encItems c ++ t) = (itemsToChars t).map (c :: ·) := by
  by_cases hu : isUnreserved c = true
  · simp [encItems, hu, itemsToChars, itemsToCharsAux]
  · have hu' : isUnreserved c = false := by
      revert hu
      cases isUnreserved c <;> simp
    simp only [encItems, hu', Bool.false_eq_true, if_false]
    rw [itemsToChars_utf8 c.toNat (char_valid_range c) t, Char.ofNat_toNat]

theorem toItems_encode (s : JStr) :
    toItems (encodeURIComponent s) = some (s.flatMap encItems) := by
  induction s with
  | nil => rfl
  | cons c cs ih =>
    simp only [encodeURIComponent, List.flatMap_cons]
    rw [toItems_encChar, ih]
    rfl

theorem itemsToChars_flatMap_encItems (s : JStr) :
    itemsToChars (s.flatMap encItems) = some s := by
  induction s with
  | nil => rfl
  | cons c cs ih =>
    simp only [List.flatMap_cons]
    rw [itemsToChars_encItems, ih]
    rfl

theorem decode_encode (s : JStr) :
    decodeURIComponent (encodeURIComponent s) = some s := by
  simp only [decodeURIComponent]
  rw [toItems_encode]
  simpa using itemsToChars_flatMap_encItems s

theorem mem_encodeURIComponent (s : JStr) :
    ∀ d ∈ encodeURIComponent s, d ≠ '&' ∧ d ≠ '=' := by
  induction s with
  | nil => simp [encodeURIComponent]
  | cons c cs ih =>
    intro d hd
    simp only [encodeURIComponent, List.mem_append] at hd
    rcases hd with hd | hd
    · by_cases hu : isUnreserved c = true
      · simp only [encChar, if_pos hu, List.mem_singleton] at hd
        subst hd
        constructor <;> intro h <;> rw [h] at hu <;> simp [isUnreserved] at hu
      · have hu' : isUnreserved c = false := by
          revert hu
          cases isUnreserved c <;> simp
        have hlt : c.toNat < 1114112 := by
          rcases char_valid_range c with h | ⟨_, h⟩ <;> omega
        simp only [encChar, hu', Bool.false_eq_true, if_false, List.mem_flatMap] at hd
        obtain ⟨b, hb, hdb⟩ := hd
        have hb256 := utf8Bytes_lt_256 c.toNat hlt b hb
        simp only [escByte, List.mem_cons, List.mem_singleton, List.not_mem_nil] at hdb
        rcases hdb with h | h | h
        · subst h
          exact ⟨by decide, by decide⟩
        · subst h
          exact hexUpper_ne_special (b / 16) (by omega)
        · rcases h with h | h
          · subst h
            exact hexUpper_ne_special (b % 16) (by omega)
          · cases h
    · exact ih d hd

theorem splitOnChar_ne_nil (sep : Char) (l : JStr) : splitOnChar sep l ≠ [] := by
  induction l with
  | nil => simp [splitOnChar]
  | cons c cs ih =>
    simp only [splitOnChar]
    split
    · simp
    · split <;> simp

theorem splitOnChar_not_mem (sep : Char) (l : JStr) (h : sep ∉ l) :
    splitOnChar sep l = [l] := by
  induction l with
  | nil => rfl
  | cons c cs ih =>
    have hc : ¬ c = sep := fun e => h (e ▸ List.mem_cons_self c cs)
    have hcs : sep ∉ cs := fun m => h (List.mem_cons_of_mem c m)
    simp only [splitOnChar, ih hcs]
    rw [if_neg hc]

theorem splitOnChar_append (sep : Char) (a b : JStr) (h : sep ∉ a) :
    splitOnChar sep (a ++ sep :: b) = a :: splitOnChar sep b := by
  induction a with
  | nil =>
    simp only [List.nil_append, splitOnChar]
    rw [if_pos trivial]
  | cons c cs ih =>
    have hc : ¬ c = sep := fun e => h (e ▸ List.mem_cons_self c cs)
    have hcs : sep ∉ cs := fun m => h (List.mem_cons_of_mem c m)
    have hrec : splitOnChar sep (cs.append (sep :: b)) = cs :: splitOnChar sep b := ih hcs
    simp only [List.cons_append, splitOnChar, hrec]
    rw [if_neg hc]

theorem splitOnChar_joinSep (sep : Char) :
    ∀ parts : List JStr, parts ≠ [] → (∀ p ∈ parts, sep ∉ p) →
      splitOnChar sep (joinSep sep parts) = parts := by
  intro parts
  induction parts with
  | nil => intro hne _; cases hne rfl
  | cons p rest ih =>
    intro _ hall
    cases rest with
    | nil => exact splitOnChar_not_mem sep p (hall p (List.mem_cons_self p []))
    | cons q rest2 =>
      have hjoin : joinSep sep (p :: q :: rest2) = p ++ sep :: joinSep sep (q :: rest2) := rfl
      rw [hjoin, splitOnChar_append sep p _ (hall p (List.mem_cons_self p _)),
        ih (by simp) (fun x hx => hall x (List.mem_cons_of_mem p hx))]

theorem findQuery_not_mem (url : JStr) (h : '?' ∉ url) : findQuery url = none := by
  induction url with
  | nil => rfl
  | cons c cs ih =>
    have hc : ¬ c = '?' := fun e => h (e ▸ List.mem_cons_self c cs)
    simp only [findQuery]
    rw [if_neg hc]
    exact ih fun m => h (List.mem_cons_of_mem c m)

theorem findQuery_append (url qs : JStr) (h : '?' ∉ url) :
    findQuery (url ++ '?' :: qs) = some qs := by
  induction url with
  | nil =>
    simp only [List.nil_append, findQuery]
    rw [if_pos trivial]

  | cons c cs ih =>
    have hc : ¬ c = '?' := fun e => h (e ▸ List.mem_cons_self c cs)
    simp only [List.cons_append, findQuery]
    rw [if_neg hc]
    exact ih fun m => h (List.mem_cons_of_mem c m)

theorem insertOrAssign_append (l : ParamsL) (k : JStr) (v : JValue)
    (h : k ∉ l.map Prod.fst) : insertOrAssign l k v = l ++ [(k, v)] := by
  induction l with
  | nil => rfl
  | cons kv rest ih =>
    obtain ⟨k', v'⟩ := kv
    have hk : ¬ k' = k := by
      intro e
      apply h
      simp [e]
    have hrest : k ∉ rest.map Prod.fst := by
      intro m
      apply h
      simp only [List.map_cons, List.mem_cons]
      exact Or.inr m
    show (if k' = k then (k, v) :: rest else (k', v') :: insertOrAssign rest k v)
      = (k', v') :: rest ++ [(k, v)]
    rw [if_neg hk, ih hrest]
    rfl

theorem parsePairs_build (ps : ParamsL) :
    ∀ acc : ParamsL,
      (∀ kv ∈ ps, kv.1 ≠ [] ∧ '&' ∉ kv.1 ∧ '=' ∉ kv.1) →
      (∀ kv ∈ ps, kv.1 ∉ acc.map Prod.fst) →
      (ps.map Prod.fst).Nodup →
      parsePairs (ps.map fun kv => kv.1 ++ '=' :: encodeURIComponent (serializeValue kv.2)) acc
        = some (acc ++ ps.map fun kv => (kv.1, jsonParseOrString (serializeValue kv.2))) := by
  induction ps with
  | nil =>
    intro acc _ _ _
    simp [parsePairs]
  | cons kv rest ih =>
    intro acc hkeys hfresh hnodup
    obtain ⟨k, v⟩ := kv
    obtain ⟨hk0, hkamp, hkeq⟩ := hkeys (k, v) (List.mem_cons_self _ _)
    have henc : '=' ∉ encodeURIComponent (serializeValue v) := by
      intro hm
      exact ((mem_encodeURIComponent _ _ hm).2) rfl
    have hsplit : splitOnChar '=' (k ++ '=' :: encodeURIComponent (serializeValue v))
        = [k, encodeURIComponent (serializeValue v)] := by
      rw [splitOnChar_append '=' k _ hkeq, splitOnChar_not_mem '=' _ henc]
    simp only [List.map_cons, parsePairs, hsplit, List.headD_cons]
    rw [if_neg hk0]
    rw [show ([k, encodeURIComponent (serializeValue v)][1]?).getD "undefined".toList
        = encodeURIComponent (serializeValue v) from rfl]
    rw [decode_encode (serializeValue v)]
    show parsePairs
        (rest.map fun kv => kv.1 ++ '=' :: encodeURIComponent (serializeValue kv.2))
        (insertOrAssign acc k (jsonParseOrString (serializeValue v)))
      = some (acc ++ (k, jsonParseOrString (serializeValue v))
          :: rest.map fun kv => (kv.1, jsonParseOrString (serializeValue kv.2)))
    rw [insertOrAssign_append acc k _ (hfresh (k, v) (List.mem_cons_self _ _))]
    have hkeys2 : ∀ kv ∈ rest, kv.1 ≠ [] ∧ '&' ∉ kv.1 ∧ '=' ∉ kv.1 :=
      fun x hx => hkeys x (List.mem_cons_of_mem _ hx)
    have hnodup2 : (rest.map Prod.fst).Nodup := (List.nodup_cons.mp hnodup).2
    have hknotin : k ∉ rest.map Prod.fst := (List.nodup_cons.mp hnodup).1
    have hfresh2 : ∀ kv ∈ rest,
        kv.1 ∉ (acc ++ [(k, jsonParseOrString (serializeValue v))]).map Prod.fst := by
      intro x hx
      simp only [List.map_append, List.mem_append, List.map_cons, List.map_nil,
        List.mem_singleton, not_or]
      refine ⟨hfresh x (List.mem_cons_of_mem _ hx), ?_⟩
      intro e
      apply hknotin
      rw [← e]
      exact List.mem_map_of_mem Prod.fst hx
    rw [ih _ hkeys2 hfresh2 hnodup2]
    simp

/-! ## Claim theorems: the URL round trip -/

/-- C3 counterexample: building `/p` with the primitive parameter
`id = 123` and parsing the result back yields the JSON number `123`,
not the string form `"123"` the claim requires — `parseUrlParams`
JSON-parses each decoded value and only falls back to the string. -/
theorem parseUrlParams_not_string_form :
    parseUrlParams (buildUrl "/p".toList (some [("id".toList, JValue.num 123)]))
      = some [("id".toList, JValue.num 123)]
    ∧ JValue.num 123 ≠ JValue.str "123".toList :=
  ⟨rfl, fun h => JValue.noConfusion h⟩

/-- C3 (amended): for every path without `?` and every parameter record
with distinct, nonempty keys free of `&` and `=`, parsing the query
portion of `buildUrl(path, P)` recovers a mapping that assigns to each
key the JSON parse of the value's serialized form when that text parses
as JSON, and the serialized text itself otherwise (the serialized form
being JSON text for object-typed values and the string form for
primitives). -/
theorem buildUrl_parseUrlParams_roundtrip
    (url : JStr) (ps : ParamsL)
    (hurl : '?' ∉ url)
    (hkeys : ∀ kv ∈ ps, kv.1 ≠ [] ∧ '&' ∉ kv.1 ∧ '=' ∉ kv.1)
    (hnodup : (ps.map Prod.fst).Nodup) :
    parseUrlParams (buildUrl url (some ps))
      = some (ps.map fun kv => (kv.1, jsonParseOrString (serializeValue kv.2))) := by
  cases ps with
  | nil =>
    have hb : buildUrl url (some []) = url := rfl
    rw [hb]
    simp only [parseUrlParams, findQuery_not_mem url hurl, List.map_nil]
  | cons kv rest =>
    have hparts : ∀ p ∈ ((kv :: rest).map fun x =>
        x.1 ++ '=' :: encodeURIComponent (serializeValue x.2)), '&' ∉ p := by
      intro p hp hmem
      simp only [List.mem_map] at hp
      obtain ⟨x, hx, rfl⟩ := hp
      obtain ⟨_, hamp, _⟩ := hkeys x hx
      rcases List.mem_append.mp hmem with h | h
      · exact hamp h
      · rcases List.mem_cons.mp h with h | h
        · exact absurd h (by decide)
        · exact ((mem_encodeURIComponent _ _ h).1) rfl
    have hb : buildUrl url (some (kv :: rest))
        = url ++ '?' :: joinSep '&'
            ((kv :: rest).map fun x => x.1 ++ '=' :: encodeURIComponent (serializeValue x.2)) := by
      simp only [buildUrl]
      rw [if_neg (by simp), if_neg hurl]
    rw [hb]
    simp only [parseUrlParams]
    rw [findQuery_append _ _ hurl]
    show parsePairs (splitOnChar '&' (joinSep '&'
        ((kv :: rest).map fun x => x.1 ++ '=' :: encodeURIComponent (serializeValue x.2)))) []
      = some ((kv :: rest).map fun x => (x.1, jsonParseOrString (serializeValue x.2)))
    rw [splitOnChar_joinSep '&' _ (by simp) hparts]
    exact parsePairs_build (kv :: rest) [] hkeys (by simp) hnodup

/-- Witness for C3's amended theorem: `/p` with the object parameter
`o = {"b": 1}` parses back to the object itself (the JSON parse of its
serialized form). -/
theorem buildUrl_parseUrlParams_roundtrip_witness :
    parseUrlParams (buildUrl "/p".toList
        (some [("o".toList, JValue.obj [("b".toList, JValue.num 1)])]))
      = some [("o".toList,
          jsonParseOrString (serializeValue (JValue.obj [("b".toList, JValue.num 1)])))] :=
  buildUrl_parseUrlParams_roundtrip "/p".toList
    [("o".toList, JValue.obj [("b".toList, JValue.num 1)])]
    (by decide) (by decide) (by simp)
